import Mathlib

/-!
Shallow embedding of the `expressoptionchain` package (option-chain streaming
and aggregation over a shared key/value store), together with proofs about the
claims of its specification.

Conventions of the embedding:
* Python floats (strike prices, last-traded prices, premiums) are modelled as
  rationals (`ℚ`).
* The shared redis store is modelled as `Store`, a record of association lists,
  one per named table (`option_token_info`, `ticks`, `ltp`, `option_chain`,
  `valid_option_expiry`).  `hget` is association-list lookup, `hset` is
  in-place association-list update.
* Python dictionaries preserve first-insertion key order; they are modelled as
  association lists with in-place update (`assocSet`) and append-on-new-key.
* Python's `sorted` is a stable sort driven by strict `<` comparisons on keys
  (for `cmp_to_key`, `K(x) < K(y)` iff `cmp x y < 0`).  It is modelled by the
  stable insertion sort `pySorted lt`, which places `x` before `y` exactly when
  `lt y x` is false, as CPython's stable sort does.
* Functions that can raise exceptions are modelled with `Except`; functions
  that merely log and return are total.
-/

/-- Instrument type of an option: CE (call) or PE (put).
Source stores the strings `'CE'`/`'PE'`; only option instruments
(segment containing `'OPT'`) reach the structures modelled here. -/
inductive InstrType where
  | ce
  | pe
deriving DecidableEq, Repr

/-- Subscription mode of a tick batch (kite `MODE_FULL` / `MODE_QUOTE` / `MODE_LTP`). -/
inductive TickMode where
  | full
  | quote
  | ltpMode
deriving DecidableEq, Repr

/-- One level of bid/ask depth (fields consumed by `option_chain.get_option_detail`). -/
structure DepthItem where
  price : ℚ
  quantity : Nat
deriving DecidableEq, Repr

/-- The `depth` field of a tick: buy side and sell side, best first. -/
structure Depth where
  buy : List DepthItem
  sell : List DepthItem
deriving DecidableEq, Repr

/-- OHLC sub-record of a tick. -/
structure Ohlc where
  opn : ℚ
  high : ℚ
  low : ℚ
  close : ℚ
deriving DecidableEq, Repr

/-- A tick payload, with the fields the package consumes
(`option_stream.OptionChainTicker.on_ticks`/`handle_ticks` and
`option_chain.OptionChainCreator.get_option_detail`).  The two timestamp
fields are the already-normalized display strings. -/
structure Tick where
  instrument_token : Nat
  mode : TickMode
  last_price : ℚ
  last_trade_time : String
  exchange_timestamp : String
  last_traded_quantity : Nat
  change : ℚ
  oi : Nat
  oi_day_high : Nat
  oi_day_low : Nat
  total_buy_quantity : Nat
  total_sell_quantity : Nat
  volume_traded : Nat
  tradable : Bool
  ohlc : Ohlc
  depth : Depth
deriving DecidableEq, Repr

/-- An entry of `option_token_info`, as built by
`instrument_manager.KiteInstrumentManager.get_instrument_info`. -/
structure InstrumentInfo where
  token : Nat
  exchange_token : String
  exchange : String
  trading_symbol : String
  name : String
  expiry : String
  strike_price : ℚ
  tick_size : ℚ
  lot_size : Nat
  instrument_type : InstrType
  segment : String
deriving DecidableEq, Repr

/-- A raw catalog record as returned by `kite_client.instruments()`, with the
fields `process_instruments` consumes.  The `expiry` field holds the already
`dd-mm-yyyy`-formatted date (`get_expiry` formats the date object). -/
structure CatalogItem where
  instrument_token : Nat
  exchange_token : String
  exchange : String
  tradingsymbol : String
  name : String
  expiry : String
  strike : ℚ
  tick_size : ℚ
  lot_size : Nat
  instrument_type : InstrType
  segment : String
deriving DecidableEq, Repr

/-- The per-tick quote view stored on a chain side, translated field by field
from `OptionChainCreator.get_option_detail`. -/
structure OptionDetail where
  bid_quantity : Nat
  bid_price : ℚ
  ask_quantity : Nat
  ask_price : ℚ
  premium : ℚ
  last_trade_time : String
  exchange_timestamp : String
  last_traded_quantity : Nat
  change : ℚ
  oi : Nat
  oi_day_high : Nat
  oi_day_low : Nat
  total_buy_quantity : Nat
  ohlc : Ohlc
  total_sell_quantity : Nat
  volume : Nat
  bid : List DepthItem
  ask : List DepthItem
  tradable : Bool
  depth : Depth
  instrument_token : Nat
deriving DecidableEq, Repr

/-- A strike entry of the aggregated chain: `{'strike_price': .., 'ce'?: .., 'pe'?: ..}`.
The `ce`/`pe` keys are present only when the corresponding tick exists, modelled
with `Option`. -/
structure ChainEntry where
  strike_price : ℚ
  ce : Option OptionDetail
  pe : Option OptionDetail
deriving DecidableEq, Repr

/-- The aggregated option chain record of one trading symbol, as built by
`OptionChainCreator.get_option_chain_base` and then filled in. -/
structure OptionChain where
  trading_symbol : String
  exchange : String
  segment : String
  underlying_value : Option ℚ
  expiry : List (String × List ChainEntry)
  source : String
  lot_size : Nat
deriving DecidableEq, Repr

/-- Association-list lookup; models Python `d.get(k)` / `d[k]` on an
insertion-ordered dict. -/
def alookup [DecidableEq κ] (k : κ) : List (κ × β) → Option β
  | [] => none
  | (k', v) :: rest => if k' = k then some v else alookup k rest

/-- Association-list update; models Python `d[k] = v`: updates the key in
place if present, otherwise appends it (dicts keep first-insertion order). -/
def assocSet [DecidableEq κ] (l : List (κ × β)) (k : κ) (v : β) : List (κ × β) :=
  match l with
  | [] => [(k, v)]
  | (k', v') :: rest => if k' = k then (k, v) :: rest else (k', v') :: assocSet rest k v

/-- Stable insertion of `x` into `l`, placing `x` before the first element `y`
for which `lt y x` is false — the comparison pattern of Python's stable sort. -/
def pyInsert (lt : α → α → Bool) (x : α) : List α → List α
  | [] => [x]
  | y :: ys => if lt y x then y :: pyInsert lt x ys else x :: y :: ys

/-- Model of Python's `sorted(l, ...)`: a stable sort driven by the strict
comparison `lt` (for `key=f`, `lt a b = f a < f b`; for `cmp_to_key(c)`,
`lt a b = c a b < 0`). -/
def pySorted (lt : α → α → Bool) : List α → List α
  | [] => []
  | x :: xs => pyInsert lt x (pySorted lt xs)

/-- Python `pat in s` on strings, on the underlying character lists. -/
def strContainsAux (pat : List Char) : List Char → Bool
  | [] => pat.isEmpty
  | c :: cs => pat.isPrefixOf (c :: cs) || strContainsAux pat cs

/-- Python `pat in s` substring containment. -/
def strContains (s pat : String) : Bool :=
  strContainsAux pat.data s.data

/-- Python `s.replace(pat, rep)` on character lists: left-to-right,
non-overlapping, replaces every occurrence. -/
def replaceChars (pat rep : List Char) : List Char → List Char
  | [] => []
  | c :: cs =>
    if h : pat ≠ [] ∧ pat.isPrefixOf (c :: cs) then
      rep ++ replaceChars pat rep ((c :: cs).drop pat.length)
    else
      c :: replaceChars pat rep cs
termination_by l => l.length
decreasing_by
  · simp only [List.length_drop, List.length_cons]
    have hp : pat.length ≠ 0 := fun h0 => h.1 (List.eq_nil_of_length_eq_zero h0)
    omega
  · simp only [List.length_cons]
    omega

/-- Python `s.replace(pat, rep)`. -/
def strReplace (s pat rep : String) : String :=
  ⟨replaceChars pat.data rep.data s.data⟩

/-- The shared redis store: one association list per table used by the package
(`option_token_info`, `ticks`, `ltp`, `option_chain`) plus the
`valid_option_expiry` set. -/
structure Store where
  option_token_info : List (String × List (String × List InstrumentInfo))
  ticks : List (Nat × Tick)
  ltp : List (String × ℚ)
  option_chain : List (String × OptionChain)
  valid_option_expiry : List String

/- ===================== instrument_manager.KiteInstrumentManager ===================== -/

/-- `KiteInstrumentManager.get_instrument_info`: projects a raw catalog item to
the stored instrument info record. -/
def get_instrument_info (item : CatalogItem) : InstrumentInfo :=
  { token := item.instrument_token
    exchange_token := item.exchange_token
    exchange := item.exchange
    trading_symbol := item.tradingsymbol
    name := item.name
    expiry := item.expiry
    strike_price := item.strike
    tick_size := item.tick_size
    lot_size := item.lot_size
    instrument_type := item.instrument_type
    segment := item.segment }

/-- `KiteInstrumentManager.strike_price_comparator`: negative when `x1` sorts
before `x2`; at equal strikes CE sorts before PE. -/
def strike_price_comparator (x1 x2 : InstrumentInfo) : ℚ :=
  if x1.strike_price = x2.strike_price then
    if x1.instrument_type = InstrType.ce then -1 else 1
  else
    x1.strike_price - x2.strike_price

/-- The sort applied to each per-expiry instrument list in
`process_instruments`: `sorted(l, key=cmp_to_key(strike_price_comparator))`. -/
def sortByStrikeComparator (l : List InstrumentInfo) : List InstrumentInfo :=
  pySorted (fun a b => decide (strike_price_comparator a b < 0)) l

/-- One grouping step of `process_instruments`: files `info` under
`key -> expiry -> list`, creating the inner dict / list as the source does. -/
def insertInfo (m : List (String × List (String × List InstrumentInfo)))
    (key e : String) (info : InstrumentInfo) :
    List (String × List (String × List InstrumentInfo)) :=
  match alookup key m with
  | none => m ++ [(key, [(e, [info])])]
  | some em =>
    match alookup e em with
    | none => assocSet m key (em ++ [(e, [info])])
    | some l => assocSet m key (assocSet em e (l ++ [info]))

/-- `KiteInstrumentManager.process_instruments`, restricted to the
`option_token_info` table it produces: groups option instruments (segment
containing `'OPT'`) by `exchange:name` and expiry, then sorts every per-expiry
list with `strike_price_comparator`. -/
def process_instruments (catalog : List CatalogItem) :
    List (String × List (String × List InstrumentInfo)) :=
  let m := catalog.foldl
    (fun m item =>
      if strContains item.segment "OPT" then
        insertInfo m (item.exchange ++ ":" ++ item.name) item.expiry (get_instrument_info item)
      else m)
    []
  m.map (fun kv => (kv.1, kv.2.map (fun ev => (ev.1, sortByStrikeComparator ev.2))))

/- ===================== instrument_manager.KiteInstrumentFetcher ===================== -/

/-- Errors raised by the instrument fetcher / stream paths
(`KiteInstrumentManagerException`, plus Python `TypeError` for `in` on `None`). -/
inductive FetchErr where
  | symbolNotFound
  | expiryNotFound
  | typeError
deriving DecidableEq, Repr

/-- `KiteInstrumentFetcher.get_token_info_for_trading_symbol`: all option
tokens of a symbol at an expiry; raises when the symbol or expiry is absent. -/
def get_token_info_for_trading_symbol (db : Store) (sym e : String) :
    Except FetchErr (List Nat) :=
  match alookup sym db.option_token_info with
  | none => .error .symbolNotFound
  | some m =>
    if m = [] then .error .symbolNotFound
    else
      match alookup e m with
      | none => .error .expiryNotFound
      | some infos => .ok (infos.map (fun o => o.token))

/-- `KiteInstrumentFetcher.first_otm_strike_price`: scan the strike-sorted
list, return the first strike at or above the spot price, else the last strike.
(The source indexes `token_info_list[-1]` and raises on an empty list; the
claims only exercise non-empty lists, where this definition agrees.) -/
def first_otm_strike_price (l : List InstrumentInfo) (ltp : ℚ) : ℚ :=
  match l with
  | [] => 0
  | ti :: rest =>
    if ltp ≤ ti.strike_price then ti.strike_price
    else
      match rest with
      | [] => ti.strike_price
      | _ :: _ => first_otm_strike_price rest ltp

/-- The per-symbol body of `KiteInstrumentFetcher.get_tokens` under a
percentage criteria (source lines 224-257): non-NFO symbols contribute all
their tokens; a missing spot price falls back to all tokens; otherwise keep
exactly the instruments within `value` percent of the reference strike.
(`expiry not in None` raises `TypeError` in Python when the symbol is absent.) -/
def get_tokens_percentage (db : Store) (sym e : String) (p : ℚ) :
    Except FetchErr (List Nat) :=
  if strContains sym "NFO" = false then
    get_token_info_for_trading_symbol db sym e
  else
    match alookup sym db.option_token_info with
    | none => .error .typeError
    | some m =>
      match alookup e m with
      | none => .error .expiryNotFound
      | some infos =>
        match alookup (strReplace sym "NFO" "NSE") db.ltp with
        | none => get_token_info_for_trading_symbol db sym e
        | some ltpv =>
          let otm := first_otm_strike_price infos ltpv
          .ok ((infos.filter
            (fun ti => decide (|otm - ti.strike_price| / otm * 100 ≤ p))).map
            (fun ti => ti.token))

/- ===================== option_chain.OptionChainCreator ===================== -/

/-- Failure channel of the chain creator / reader (`Exception` raised by
`OptionChainFetcher.get_option_chain`).  `OptionChainCreator.create_option_chain`
never uses it: every early exit is an ordinary return. -/
inductive ChainErr where
  | chainNotFound
deriving DecidableEq, Repr

/-- `OptionChainCreator.get_option_detail`, field-by-field.  The source reads
`bid[0]`/`ask[0]` and raises `IndexError` on empty depth; modelled with a
zero default, which the claims never exercise. -/
def get_option_detail (t : Tick) : OptionDetail :=
  let bid := t.depth.buy
  let ask := t.depth.sell
  { bid_quantity := (bid.headD ⟨0, 0⟩).quantity
    bid_price := (bid.headD ⟨0, 0⟩).price
    ask_quantity := (ask.headD ⟨0, 0⟩).quantity
    ask_price := (ask.headD ⟨0, 0⟩).price
    premium := t.last_price
    last_trade_time := t.last_trade_time
    exchange_timestamp := t.exchange_timestamp
    last_traded_quantity := t.last_traded_quantity
    change := t.change
    oi := t.oi
    oi_day_high := t.oi_day_high
    oi_day_low := t.oi_day_low
    total_buy_quantity := t.total_buy_quantity
    ohlc := t.ohlc
    total_sell_quantity := t.total_sell_quantity
    volume := t.volume_traded
    bid := bid
    ask := ask
    tradable := t.tradable
    depth := t.depth
    instrument_token := t.instrument_token }

/-- `OptionChainCreator.get_underlying_value`: spot value only for NFO
non-index underlyings, looked up in the `ltp` table. -/
def get_underlying_value (db : Store) (exchange trading_symbol : String) : Option ℚ :=
  if exchange ≠ "NFO" ∨ strContains trading_symbol "NIFTY" then none
  else alookup ("NSE:" ++ trading_symbol) db.ltp

/-- `OptionChainCreator.get_option_chain_base`: the fresh chain record built
from the first token info of the pass; its expiry table holds only the
requested expiry, mapped to an empty list. -/
def get_option_chain_base (db : Store) (token_info : InstrumentInfo) (e : String) :
    OptionChain :=
  { trading_symbol := token_info.name
    exchange := token_info.exchange
    segment := token_info.segment
    underlying_value := get_underlying_value db token_info.exchange token_info.name
    expiry := [(e, [])]
    source := "kite_api"
    lot_size := token_info.lot_size }

/-- The side map grouped under one strike: `{'ce': detail?, 'pe': detail?}`. -/
structure SideMap where
  ce : Option OptionDetail
  pe : Option OptionDetail
deriving DecidableEq, Repr

/-- `strike_price_instrument_type_map[sp][itype] = detail`. -/
def setSide (m : SideMap) : InstrType → OptionDetail → SideMap
  | .ce, d => ⟨some d, m.pe⟩
  | .pe, d => ⟨m.ce, some d⟩

/-- Insert one (strike, side, detail) into the strike-keyed `defaultdict(dict)`:
update the existing strike key in place, or append a new one. -/
def upsertSide : List (ℚ × SideMap) → ℚ → InstrType → OptionDetail → List (ℚ × SideMap)
  | [], s, ty, d => [(s, setSide ⟨none, none⟩ ty d)]
  | (s', m) :: rest, s, ty, d =>
    if s' = s then (s', setSide m ty d) :: rest
    else (s', m) :: upsertSide rest s ty d

/-- One iteration of the tick-collection loop of `create_option_chain`:
a missing tick is skipped, a present tick is filed under its strike and side. -/
def stepSide (db : Store) (acc : List (ℚ × SideMap)) (ti : InstrumentInfo) :
    List (ℚ × SideMap) :=
  match alookup ti.token db.ticks with
  | none => acc
  | some t => upsertSide acc ti.strike_price ti.instrument_type (get_option_detail t)

/-- The full tick-collection loop of `create_option_chain` over the expiry's
instrument list. -/
def collectSides (db : Store) (infos : List InstrumentInfo) : List (ℚ × SideMap) :=
  infos.foldl (stepSide db) []

/-- One entry of `list_of_options`: strike plus the sides present in its map. -/
def mkChainEntry (p : ℚ × SideMap) : ChainEntry :=
  ⟨p.1, p.2.ce, p.2.pe⟩

/-- The per-expiry entry list produced by one aggregation pass:
group ticks by strike, emit one entry per strike with at least one side,
sort ascending by strike (`sorted(l, key=lambda x: x['strike_price'])`). -/
def buildChainEntries (db : Store) (infos : List InstrumentInfo) : List ChainEntry :=
  pySorted (fun a b => decide (a.strike_price < b.strike_price))
    ((collectSides db infos).map mkChainEntry)

/-- The chain record written by a pass that reaches the final `hset`. -/
def chainAfter (db : Store) (e : String) (info0 : InstrumentInfo)
    (infos : List InstrumentInfo) : OptionChain :=
  let base := get_option_chain_base db info0 e
  { base with expiry := assocSet base.expiry e (buildChainEntries db infos) }

/-- `OptionChainCreator.create_option_chain`.  Every early exit of the source
(missing symbol in `option_token_info`, missing expiry, empty instrument list)
logs and returns `None` — no exception is raised, hence every branch is `.ok`.
A completed pass `hset`s a freshly built chain record for the symbol. -/
def create_option_chain (db : Store) (sym e : String) : Except ChainErr Store :=
  match alookup sym db.option_token_info with
  | none => .ok db
  | some m =>
    if m = [] then .ok db
    else
      match alookup e m with
      | none => .ok db
      | some [] => .ok db
      | some (info0 :: rest) =>
        .ok { db with option_chain :=
          (assocSet db.option_chain sym (chainAfter db e info0 (info0 :: rest))) }

/- ===================== option_chain.OptionChainFetcher ===================== -/

/-- `OptionChainFetcher.get_option_chain`: raises when the chain was never
aggregated. -/
def get_option_chain (db : Store) (sym : String) : Except ChainErr OptionChain :=
  match alookup sym db.option_chain with
  | none => .error .chainNotFound
  | some c => .ok c

/-- `OptionChainFetcher.get_option_chains`: per-symbol fetch in input order;
the first missing symbol's exception propagates. -/
def get_option_chains (db : Store) : List String → Except ChainErr (List OptionChain)
  | [] => .ok []
  | s :: rest => do
    let c ← get_option_chain db s
    let cs ← get_option_chains db rest
    .ok (c :: cs)

/- ===================== option_stream ===================== -/

/-- What `OptionChainTicker.on_ticks` does with a batch: stop the websocket
(worker terminates, supervisor will replace it) or hand the batch to the
persisting thread. -/
inductive TickerAction where
  | stopConnection
  | handleTicks (ticks : List Tick)
deriving DecidableEq, Repr

/-- The only exception `on_ticks` itself can raise: `ticks[0]` on an empty batch. -/
inductive TickerErr where
  | indexOutOfRange
deriving DecidableEq, Repr

/-- `OptionChainTicker.on_ticks`: unconditionally reads `ticks[0]['mode']`;
a non-full mode stops the connection (no exception raised), otherwise the
batch is handled. -/
def on_ticks (ticks : List Tick) : Except TickerErr TickerAction :=
  match ticks with
  | [] => .error .indexOutOfRange
  | t :: _ =>
    if t.mode ≠ TickMode.full then .ok .stopConnection
    else .ok (.handleTicks ticks)

/-- `OptionStream.MAX_TOKENS_PER_WEBSOCKET`. -/
def MAX_TOKENS_PER_WEBSOCKET : Nat := 3000

/-- `OptionStream.MAX_WEBSOCKET_CONNECTIONS`. -/
def MAX_WEBSOCKET_CONNECTIONS : Nat := 3

/-- The validation failures of `OptionStream.validate_and_fix`
(`OptionStreamValidationException`). -/
inductive ValidationErr where
  | badSecrets
  | tokensExceeded
  | missingExchange (sym : String)
  | invalidSymbol (sym : String)
  | invalidExpiry
deriving DecidableEq, Repr

/-- The kite credentials dict; Python's falsy check covers a missing or empty
value, modelled as the empty string. -/
structure Secrets where
  api_key : String
  access_token : String
deriving DecidableEq, Repr

/-- The per-symbol loop of `validate_and_fix`: exchange prefix first, then
membership among the keys of `option_token_info`. -/
def check_symbols (valid_keys : List String) : List String → Except ValidationErr Unit
  | [] => .ok ()
  | s :: rest =>
    if strContains s ":" = false then .error (.missingExchange s)
    else if s ∈ valid_keys then check_symbols valid_keys rest
    else .error (.invalidSymbol s)

/-- `OptionStream.validate_and_fix`, in source order: secrets, token-count
ceiling (`max_connections * MAX_TOKENS_PER_WEBSOCKET`), per-symbol checks,
expiry membership. -/
def validate_and_fix (db : Store) (secrets : Secrets) (all_tokens : List Nat)
    (max_connections : Nat) (trading_symbols : List String) (expiry : String) :
    Except ValidationErr Unit :=
  if secrets.api_key = "" then .error .badSecrets
  else if secrets.access_token = "" then .error .badSecrets
  else if max_connections * MAX_TOKENS_PER_WEBSOCKET < all_tokens.length then
    .error .tokensExceeded
  else
    match check_symbols (db.option_token_info.map Prod.fst) trading_symbols with
    | .error err => .error err
    | .ok _ =>
      if expiry ∈ db.valid_option_expiry then .ok ()
      else .error .invalidExpiry

/-- The state a successfully constructed `OptionStream` carries into `start`. -/
structure OptionStreamState where
  secrets : Secrets
  trading_symbols : List String
  expiry : String
  max_connections : Nat
  all_tokens : List Nat
deriving DecidableEq, Repr

/-- The tail of `OptionStream.__init__`: the resolved token list is validated
before the constructor returns; no streaming session exists yet. -/
def option_stream_init (db : Store) (secrets : Secrets) (trading_symbols : List String)
    (expiry : String) (max_connections : Nat) (all_tokens : List Nat) :
    Except ValidationErr OptionStreamState :=
  match validate_and_fix db secrets all_tokens max_connections trading_symbols expiry with
  | .error err => .error err
  | .ok _ => .ok ⟨secrets, trading_symbols, expiry, max_connections, all_tokens⟩

/-- The connection partitioning of `OptionStream.start`: the session count is
`min(max_connections, ceil(N / MAX_TOKENS_PER_WEBSOCKET))` and session `i`
owns the slice `tokens[i*3000 : (i+1)*3000]`. -/
def sessionTokenSlices (all_tokens : List Nat) (max_connections : Nat) :
    List (List Nat) :=
  let n := min max_connections
    ((all_tokens.length + (MAX_TOKENS_PER_WEBSOCKET - 1)) / MAX_TOKENS_PER_WEBSOCKET)
  (List.range n).map
    (fun i => (all_tokens.drop (i * MAX_TOKENS_PER_WEBSOCKET)).take MAX_TOKENS_PER_WEBSOCKET)

/- ===================== concrete instances used by witnesses ===================== -/

/-- A full-mode tick with token `tok`, for concrete stores. -/
def mkTick (tok : Nat) : Tick :=
  { instrument_token := tok
    mode := TickMode.full
    last_price := 15
    last_trade_time := "27-04-2023 10:00:00"
    exchange_timestamp := "27-04-2023 10:00:01"
    last_traded_quantity := 50
    change := 1
    oi := 100
    oi_day_high := 120
    oi_day_low := 90
    total_buy_quantity := 1000
    total_sell_quantity := 900
    volume_traded := 5000
    tradable := true
    ohlc := ⟨14, 16, 13, 15⟩
    depth := ⟨[⟨14, 10⟩], [⟨16, 12⟩]⟩ }

/-- A quote-mode tick, for the degraded-batch witness. -/
def quoteTick : Tick :=
  { (mkTick 7) with mode := TickMode.quote }

/-- An option instrument at a given strike/type/token under `NFO:HDFCBANK`. -/
def mkInfo (tok : Nat) (s : ℚ) (ty : InstrType) : InstrumentInfo :=
  { token := tok
    exchange_token := "80439"
    exchange := "NFO"
    trading_symbol := "HDFCBANK23FEB"
    name := "HDFCBANK"
    expiry := "23-02-2023"
    strike_price := s
    tick_size := 1
    lot_size := 550
    instrument_type := ty
    segment := "NFO-OPT" }

/-- Instruments at strikes 100, 105, 110 (call and put each) — the aggregation
example of the claim. -/
def exInfos : List InstrumentInfo :=
  [mkInfo 1 100 .ce, mkInfo 2 100 .pe, mkInfo 3 105 .ce,
   mkInfo 4 105 .pe, mkInfo 5 110 .ce, mkInfo 6 110 .pe]

/-- Store with ticks only for 100CE, 100PE, 105CE. -/
def exDb : Store :=
  { option_token_info := [("NFO:HDFCBANK", [("23-02-2023", exInfos)])]
    ticks := [(1, mkTick 1), (2, mkTick 2), (3, mkTick 3)]
    ltp := []
    option_chain := []
    valid_option_expiry := ["23-02-2023"] }

/-- A previously aggregated chain entry stored under expiry `e2`. -/
def oldEntry : ChainEntry := ⟨100, some (get_option_detail (mkTick 2)), none⟩

/-- A chain record already stored for the symbol, holding expiry `"e2"`. -/
def oldChain : OptionChain :=
  { trading_symbol := "HDFCBANK"
    exchange := "NFO"
    segment := "NFO-OPT"
    underlying_value := none
    expiry := [("e2", [oldEntry])]
    source := "kite_api"
    lot_size := 550 }

/-- Store for the frame-effect counterexample: token info for expiry `"e1"`,
and an existing chain with expiry `"e2"` for the same symbol. -/
def frameDb : Store :=
  { option_token_info := [("NFO:HDFCBANK", [("e1", [mkInfo 1 100 .ce])])]
    ticks := []
    ltp := []
    option_chain := [("NFO:HDFCBANK", oldChain)]
    valid_option_expiry := ["e1", "e2"] }

/-- The empty store. -/
def emptyDb : Store := ⟨[], [], [], [], []⟩

/-- Store for the percentage-filter witness: three calls at strikes 90, 100,
110, spot 95. -/
def pctInfos : List InstrumentInfo :=
  [mkInfo 1 90 .ce, mkInfo 2 100 .ce, mkInfo 3 110 .ce]

/-- Store for the percentage-filter witness. -/
def pctDb : Store :=
  { option_token_info := [("NFO:HDFCBANK", [("23-02-2023", pctInfos)])]
    ticks := []
    ltp := [("NSE:HDFCBANK", 95)]
    option_chain := []
    valid_option_expiry := ["23-02-2023"] }

/-- Store for the chain-reader witness: one chain aggregated, one symbol absent. -/
def readerDb : Store :=
  { option_token_info := [("NFO:HDFCBANK", [("23-02-2023", exInfos)])]
    ticks := [(1, mkTick 1)]
    ltp := []
    option_chain := [("NFO:HDFCBANK", oldChain)]
    valid_option_expiry := ["23-02-2023"] }

/-- Well-formed credentials, for witnesses. -/
def okSecrets : Secrets := ⟨"my_api_key", "my_access_token"⟩

/-- A put at strike 100, listed first in the raw catalog. -/
def catPut100 : CatalogItem :=
  ⟨11, "a", "NFO", "HDFCBANK23FEB100PE", "HDFCBANK", "23-02-2023", 100, 1, 550, .pe, "NFO-OPT"⟩

/-- A call at strike 100, listed second in the raw catalog. -/
def catCall100 : CatalogItem :=
  ⟨12, "b", "NFO", "HDFCBANK23FEB100CE", "HDFCBANK", "23-02-2023", 100, 1, 550, .ce, "NFO-OPT"⟩

/-- A call at strike 90, listed last in the raw catalog. -/
def catCall90 : CatalogItem :=
  ⟨13, "c", "NFO", "HDFCBANK23FEB90CE", "HDFCBANK", "23-02-2023", 90, 1, 550, .ce, "NFO-OPT"⟩

/-- The ordering actually guaranteed by `strike_price_comparator`-sorting:
strictly smaller strike first; at equal strikes, CE may precede anything and
anything may precede PE. -/
def comparatorOrder (a b : InstrumentInfo) : Prop :=
  a.strike_price < b.strike_price ∨
    (a.strike_price = b.strike_price ∧
      (a.instrument_type = InstrType.ce ∨ b.instrument_type = InstrType.pe))

/-- The per-expiry list the index produces for `sortCatalog2`: strike ascending,
call before put at the shared strike. -/
def sortedInfosEx : List InstrumentInfo :=
  [get_instrument_info catCall90, get_instrument_info catCall100, get_instrument_info catPut100]

/-- Catalog for the index-sorting witness, with named items. -/
def sortCatalog2 : List CatalogItem := [catPut100, catCall100, catCall90]

/- ===================== generic helper lemmas ===================== -/

theorem alookup_assocSet_self [DecidableEq κ] (l : List (κ × β)) (k : κ) (v : β) :
    alookup k (assocSet l k v) = some v := by
  induction l with
  | nil => simp [alookup, assocSet]
  | cons p rest ih =>
    obtain ⟨k', v'⟩ := p
    by_cases h : k' = k
    · subst h; simp [alookup, assocSet]
    · simp [alookup, assocSet, h, ih]

theorem alookup_assocSet_ne [DecidableEq κ] (l : List (κ × β)) (k k' : κ) (v : β)
    (h : k' ≠ k) : alookup k' (assocSet l k v) = alookup k' l := by
  have hne : ¬k = k' := fun hh => h hh.symm
  induction l with
  | nil => simp [alookup, assocSet, hne]
  | cons p rest ih =>
    obtain ⟨k'', v''⟩ := p
    by_cases h2 : k'' = k
    · subst h2
      simp [alookup, assocSet, hne]
    · simp only [assocSet, if_neg h2, alookup]
      by_cases h3 : k'' = k'
      · simp [h3]
      · simp [h3, ih]

theorem perm_pyInsert (lt : α → α → Bool) (x : α) (l : List α) :
    (pyInsert lt x l).Perm (x :: l) := by
  induction l with
  | nil => simp [pyInsert]
  | cons y ys ih =>
    by_cases h : lt y x
    · simp only [pyInsert, if_pos h]
      exact (ih.cons y).trans (List.Perm.swap x y ys)
    · simp [pyInsert, if_neg h]

theorem perm_pySorted (lt : α → α → Bool) (l : List α) :
    (pySorted lt l).Perm l := by
  induction l with
  | nil => simp [pySorted]
  | cons x xs ih =>
    exact (perm_pyInsert lt x (pySorted lt xs)).trans (ih.cons x)

theorem mem_pySorted (lt : α → α → Bool) (l : List α) (a : α) :
    a ∈ pySorted lt l ↔ a ∈ l :=
  (perm_pySorted lt l).mem_iff

theorem pairwise_pyInsert (lt : α → α → Bool) (le' : α → α → Prop)
    (htrans : ∀ a b c, le' a b → le' b c → le' a c)
    (h1 : ∀ a b, lt b a = false → le' a b)
    (h2 : ∀ a b, lt b a = true → le' b a)
    (x : α) (l : List α) (hl : l.Pairwise le') :
    (pyInsert lt x l).Pairwise le' := by
  induction l with
  | nil => simp [pyInsert]
  | cons y ys ih =>
    rcases List.pairwise_cons.mp hl with ⟨hy, hys⟩
    by_cases h : lt y x
    · simp only [pyInsert, if_pos h]
      refine List.pairwise_cons.mpr ⟨?_, ih hys⟩
      intro z hz
      rcases List.mem_cons.mp ((perm_pyInsert lt x ys).mem_iff.mp hz) with hz | hz
      · rw [hz]; exact h2 x y h
      · exact hy z hz
    · simp only [pyInsert, if_neg h]
      have hf : lt y x = false := by simpa using h
      refine List.pairwise_cons.mpr ⟨?_, hl⟩
      intro z hz
      rcases List.mem_cons.mp hz with hz | hz
      · rw [hz]
        exact h1 x y hf
      · exact htrans x y z (h1 x y hf) (hy z hz)

theorem pairwise_pySorted (lt : α → α → Bool) (le' : α → α → Prop)
    (htrans : ∀ a b c, le' a b → le' b c → le' a c)
    (h1 : ∀ a b, lt b a = false → le' a b)
    (h2 : ∀ a b, lt b a = true → le' b a)
    (l : List α) : (pySorted lt l).Pairwise le' := by
  induction l with
  | nil => simp [pySorted]
  | cons x xs ih => exact pairwise_pyInsert lt le' htrans h1 h2 x (pySorted lt xs) ih

/- ===================== claim C6 ===================== -/

/-- C6: a tick batch whose first tick reports a mode lower than full makes the
worker stop its own websocket connection; no exception is surfaced (the result
is `.ok`, not `.error`). -/
theorem on_ticks_non_full_stops :
    ∀ (t : Tick) (ts : List Tick), t.mode ≠ TickMode.full →
      on_ticks (t :: ts) = .ok TickerAction.stopConnection := by
  intro t ts h
  simp [on_ticks, h]

/-- Witness for C6 at a concrete quote-mode batch. -/
theorem on_ticks_non_full_stops_witness :
    quoteTick.mode ≠ TickMode.full ∧
      on_ticks [quoteTick] = .ok TickerAction.stopConnection :=
  ⟨by decide, on_ticks_non_full_stops quoteTick [] (by decide)⟩

/- ===================== claim C10 ===================== -/

/-- C10: `on_ticks` unconditionally reads `ticks[0]`, so the empty batch fails
with an index error, while every non-empty batch is handled without raising. -/
theorem on_ticks_empty_batch_errors :
    on_ticks [] = .error TickerErr.indexOutOfRange ∧
      ∀ (t : Tick) (ts : List Tick), ∃ a, on_ticks (t :: ts) = .ok a := by
  refine ⟨rfl, ?_⟩
  intro t ts
  by_cases h : t.mode = TickMode.full
  · exact ⟨.handleTicks (t :: ts), by simp [on_ticks, h]⟩
  · exact ⟨.stopConnection, by simp [on_ticks, h]⟩

/- ===================== claim C7 ===================== -/

/-- C7 counterexample: on a store with no `option_token_info` entry for the
symbol, `create_option_chain` does not fail at all — it returns normally with
the store unchanged (the claim says it fails with NotFound). -/
theorem create_option_chain_missing_index_cex :
    create_option_chain emptyDb "NFO:HDFCBANK" "23-02-2023" = .ok emptyDb := rfl

/-- C7 as corrected: when the instrument index has no entry for the symbol, or
none for the expiry under it, the aggregation pass logs and returns normally,
leaving the store untouched; no NotFound error reaches the caller. -/
theorem create_option_chain_missing_index_returns_ok :
    ∀ (db : Store) (sym e : String),
      (alookup sym db.option_token_info = none ∨
       alookup sym db.option_token_info = some [] ∨
       (∃ m, alookup sym db.option_token_info = some m ∧ alookup e m = none)) →
      create_option_chain db sym e = .ok db := by
  intro db sym e h
  rcases h with h | h | ⟨m, hm, he⟩
  · simp [create_option_chain, h]
  · simp [create_option_chain, h]
  · by_cases hm0 : m = []
    · simp [create_option_chain, hm, hm0]
    · simp [create_option_chain, hm, hm0, he]

/-- Witness for the corrected C7 at the empty store. -/
theorem create_option_chain_missing_index_returns_ok_witness :
    (alookup "NFO:TCS" emptyDb.option_token_info = none) ∧
      create_option_chain emptyDb "NFO:TCS" "23-02-2023" = .ok emptyDb :=
  ⟨rfl, create_option_chain_missing_index_returns_ok emptyDb "NFO:TCS" "23-02-2023" (Or.inl rfl)⟩

/- ===================== claim C8 ===================== -/

/-- C8: with the documented connection cap (`max_connections ≤ 3`), any
resolved token list longer than the hard ceiling
`MAX_WEBSOCKET_CONNECTIONS * MAX_TOKENS_PER_WEBSOCKET = 9000` makes the
`OptionStream` constructor fail with a validation error, before any streaming
session exists. -/
theorem option_stream_init_token_ceiling :
    ∀ (db : Store) (secrets : Secrets) (syms : List String) (e : String)
      (mc : Nat) (toks : List Nat),
      mc ≤ MAX_WEBSOCKET_CONNECTIONS →
      MAX_WEBSOCKET_CONNECTIONS * MAX_TOKENS_PER_WEBSOCKET < toks.length →
      ∃ err, option_stream_init db secrets syms e mc toks = .error err := by
  intro db s syms e mc toks hmc hlen
  by_cases h1 : s.api_key = ""
  · exact ⟨.badSecrets, by simp [option_stream_init, validate_and_fix, h1]⟩
  by_cases h2 : s.access_token = ""
  · exact ⟨.badSecrets, by simp [option_stream_init, validate_and_fix, h1, h2]⟩
  have hceil : mc * MAX_TOKENS_PER_WEBSOCKET < toks.length :=
    lt_of_le_of_lt (Nat.mul_le_mul_right _ hmc) hlen
  exact ⟨.tokensExceeded, by simp [option_stream_init, validate_and_fix, h1, h2, hceil]⟩

/-- Witness for C8: 9001 resolved tokens with the default cap of 3. -/
theorem option_stream_init_token_ceiling_witness :
    (3 ≤ MAX_WEBSOCKET_CONNECTIONS) ∧
    (MAX_WEBSOCKET_CONNECTIONS * MAX_TOKENS_PER_WEBSOCKET < (List.range 9001).length) ∧
    ∃ err, option_stream_init emptyDb okSecrets ["NFO:HDFCBANK"] "23-02-2023" 3
      (List.range 9001) = .error err :=
  ⟨by decide,
   by simp [MAX_WEBSOCKET_CONNECTIONS, MAX_TOKENS_PER_WEBSOCKET, List.length_range],
   option_stream_init_token_ceiling emptyDb okSecrets ["NFO:HDFCBANK"] "23-02-2023" 3
     (List.range 9001) (by decide)
     (by simp [MAX_WEBSOCKET_CONNECTIONS, MAX_TOKENS_PER_WEBSOCKET, List.length_range])⟩

/- ===================== claim C3 ===================== -/

theorem flatten_slices (c : Nat) (l : List Nat) :
    ∀ n, ((List.range n).map (fun i => (l.drop (i * c)).take c)).flatten = l.take (n * c) := by
  intro n
  induction n with
  | zero => simp
  | succ k ih =>
    rw [List.range_succ, List.map_append, List.flatten_append, ih]
    simp only [List.map_cons, List.map_nil, List.flatten_cons, List.flatten_nil,
      List.append_nil]
    rw [← List.take_add, Nat.succ_mul]

/-- C3: for a resolved token list that passes validation
(`N ≤ max_connections * 3000`), `start` opens exactly
`min(max_connections, ceil(N / 3000))` sessions; every slice holds at most
3000 tokens, all slices but possibly the last hold exactly 3000, and the
concatenation of the slices in session order is the original token list
(hence slices are contiguous and pairwise disjoint). -/
theorem start_partitions_tokens :
    ∀ (toks : List Nat) (mc : Nat),
      toks.length ≤ mc * MAX_TOKENS_PER_WEBSOCKET →
      (sessionTokenSlices toks mc).length =
        min mc ((toks.length + (MAX_TOKENS_PER_WEBSOCKET - 1)) / MAX_TOKENS_PER_WEBSOCKET)
      ∧ (sessionTokenSlices toks mc).flatten = toks
      ∧ (∀ s ∈ sessionTokenSlices toks mc, s.length ≤ MAX_TOKENS_PER_WEBSOCKET)
      ∧ (∀ i, (h : i + 1 < (sessionTokenSlices toks mc).length) →
          ((sessionTokenSlices toks mc).get ⟨i, Nat.lt_of_succ_lt h⟩).length =
            MAX_TOKENS_PER_WEBSOCKET) := by
  intro toks mc hval
  simp only [MAX_TOKENS_PER_WEBSOCKET] at *
  have hlen : (sessionTokenSlices toks mc).length =
      min mc ((toks.length + 2999) / 3000) := by
    simp [sessionTokenSlices, MAX_TOKENS_PER_WEBSOCKET]
  refine ⟨hlen, ?_, ?_, ?_⟩
  · have hceil : (toks.length + 2999) / 3000 ≤ mc := by omega
    have hmin : min mc ((toks.length + 2999) / 3000) = (toks.length + 2999) / 3000 :=
      Nat.min_eq_right hceil
    have hcover : toks.length ≤ ((toks.length + 2999) / 3000) * 3000 := by omega
    calc (sessionTokenSlices toks mc).flatten
        = toks.take ((min mc ((toks.length + 2999) / 3000)) * 3000) := by
          simp only [sessionTokenSlices, MAX_TOKENS_PER_WEBSOCKET]
          exact flatten_slices 3000 toks _
      _ = toks := by rw [hmin]; exact List.take_of_length_le hcover
  · intro s hs
    simp only [sessionTokenSlices, MAX_TOKENS_PER_WEBSOCKET, List.mem_map] at hs
    obtain ⟨i, _, rfl⟩ := hs
    simp [List.length_take]
  · intro i h
    rw [hlen] at h
    have hi : i < min mc ((toks.length + 2999) / 3000) := Nat.lt_of_succ_lt h
    have hget : (sessionTokenSlices toks mc).get ⟨i, by rw [hlen]; exact hi⟩ =
        (toks.drop (i * 3000)).take 3000 := by
      simp [sessionTokenSlices, MAX_TOKENS_PER_WEBSOCKET, List.get_eq_getElem,
        List.getElem_map, List.getElem_range]
    rw [List.get_eq_getElem] at hget ⊢
    simp only [hget]
    have hfull : (i + 1) * 3000 ≤ toks.length := by
      have h2 : i + 1 < (toks.length + 2999) / 3000 := lt_of_lt_of_le h (Nat.min_le_right _ _)
      omega
    simp only [List.length_take, List.length_drop]
    omega

/-- Witness for C3: 4 tokens, cap 2 — a single session owning all tokens. -/
theorem start_partitions_tokens_witness :
    ((List.range 4).length ≤ 2 * MAX_TOKENS_PER_WEBSOCKET) ∧
    ((sessionTokenSlices (List.range 4) 2).length =
        min 2 (((List.range 4).length + (MAX_TOKENS_PER_WEBSOCKET - 1)) / MAX_TOKENS_PER_WEBSOCKET)
      ∧ (sessionTokenSlices (List.range 4) 2).flatten = List.range 4
      ∧ (∀ s ∈ sessionTokenSlices (List.range 4) 2, s.length ≤ MAX_TOKENS_PER_WEBSOCKET)
      ∧ (∀ i, (h : i + 1 < (sessionTokenSlices (List.range 4) 2).length) →
          ((sessionTokenSlices (List.range 4) 2).get ⟨i, Nat.lt_of_succ_lt h⟩).length =
            MAX_TOKENS_PER_WEBSOCKET)) :=
  ⟨by decide, start_partitions_tokens (List.range 4) 2 (by decide)⟩

/- ===================== claim C5 ===================== -/

theorem alookup_map_value [DecidableEq κ] (g : β → γ) (l : List (κ × β)) (k : κ) :
    alookup k (l.map (fun kv => (kv.1, g kv.2))) = (alookup k l).map g := by
  induction l with
  | nil => simp [alookup]
  | cons p rest ih =>
    obtain ⟨k', v⟩ := p
    by_cases h : k' = k
    · simp [alookup, h]
    · simp [alookup, h, ih]

theorem instrType_cases (t : InstrType) : t = InstrType.ce ∨ t = InstrType.pe := by
  cases t
  · exact Or.inl rfl
  · exact Or.inr rfl

theorem comparatorOrder_trans :
    ∀ a b c, comparatorOrder a b → comparatorOrder b c → comparatorOrder a c := by
  intro a b c hab hbc
  rcases hab with hab | ⟨hab, hab2⟩
  · rcases hbc with hbc | ⟨hbc, _⟩
    · exact Or.inl (lt_trans hab hbc)
    · exact Or.inl (hbc ▸ hab)
  · rcases hbc with hbc | ⟨hbc, hbc2⟩
    · exact Or.inl (hab ▸ hbc)
    · refine Or.inr ⟨hab.trans hbc, ?_⟩
      rcases hab2 with h | h
      · exact Or.inl h
      · rcases hbc2 with h2 | h2
        · rw [h] at h2
          cases h2
        · exact Or.inr h2

theorem sortByStrikeComparator_pairwise (l : List InstrumentInfo) :
    (sortByStrikeComparator l).Pairwise comparatorOrder := by
  refine pairwise_pySorted _ comparatorOrder comparatorOrder_trans ?_ ?_ l
  · intro a b h
    have h2 : ¬ strike_price_comparator b a < 0 := by simpa using h
    simp only [strike_price_comparator] at h2
    by_cases hs : b.strike_price = a.strike_price
    · rw [if_pos hs] at h2
      by_cases hty : b.instrument_type = InstrType.ce
      · rw [if_pos hty] at h2
        norm_num at h2
      · refine Or.inr ⟨hs.symm, Or.inr ?_⟩
        rcases instrType_cases b.instrument_type with hb | hb
        · exact absurd hb hty
        · exact hb
    · rw [if_neg hs] at h2
      have : a.strike_price ≤ b.strike_price := by linarith [not_lt.mp h2]
      rcases lt_or_eq_of_le this with h3 | h3
      · exact Or.inl h3
      · exact absurd h3.symm hs
  · intro a b h
    have h2 : strike_price_comparator b a < 0 := by simpa using h
    simp only [strike_price_comparator] at h2
    by_cases hs : b.strike_price = a.strike_price
    · rw [if_pos hs] at h2
      by_cases hty : b.instrument_type = InstrType.ce
      · exact Or.inr ⟨hs, Or.inl hty⟩
      · rw [if_neg hty] at h2
        norm_num at h2
    · rw [if_neg hs] at h2
      exact Or.inl (by linarith)

/-- C5: every per-symbol, per-expiry instrument list produced by the index
refresh has non-decreasing strike prices, and at a shared strike a put never
precedes a call. -/
theorem index_lists_sorted :
    ∀ (catalog : List CatalogItem) (sym e : String)
      (em : List (String × List InstrumentInfo)) (infos : List InstrumentInfo),
      alookup sym (process_instruments catalog) = some em →
      alookup e em = some infos →
      infos.Pairwise (fun a b =>
        a.strike_price ≤ b.strike_price ∧
        (a.strike_price = b.strike_price →
          ¬(a.instrument_type = InstrType.pe ∧ b.instrument_type = InstrType.ce))) := by
  intro catalog sym e em infos h1 h2
  simp only [process_instruments] at h1
  rw [alookup_map_value] at h1
  rcases Option.map_eq_some'.mp h1 with ⟨em0, hem0, hem⟩
  subst hem
  rw [alookup_map_value] at h2
  rcases Option.map_eq_some'.mp h2 with ⟨infos0, hinf0, hinf⟩
  subst hinf
  refine (sortByStrikeComparator_pairwise infos0).imp ?_
  intro a b hab
  rcases hab with hab | ⟨hab, hab2⟩
  · exact ⟨le_of_lt hab, fun he => absurd he (ne_of_lt hab)⟩
  · refine ⟨le_of_eq hab, fun _ hcontra => ?_⟩
    rcases hab2 with h | h
    · rw [hcontra.1] at h
      cases h
    · rw [hcontra.2] at h
      cases h

/-- Witness for C5: a catalog listing PE 100 before CE 100 before CE 90; the
produced list is [CE 90, CE 100, PE 100]. -/
theorem index_lists_sorted_witness :
    (alookup "NFO:HDFCBANK" (process_instruments sortCatalog2) =
      some [("23-02-2023", sortedInfosEx)]) ∧
    (alookup "23-02-2023" [("23-02-2023", sortedInfosEx)] = some sortedInfosEx) ∧
    sortedInfosEx.Pairwise (fun a b =>
      a.strike_price ≤ b.strike_price ∧
      (a.strike_price = b.strike_price →
        ¬(a.instrument_type = InstrType.pe ∧ b.instrument_type = InstrType.ce))) := by
  have happ : "NFO" ++ ":" ++ "HDFCBANK" = "NFO:HDFCBANK" := by decide
  have h1 : alookup "NFO:HDFCBANK" (process_instruments sortCatalog2) =
      some [("23-02-2023", sortedInfosEx)] := by
    norm_num [process_instruments, insertInfo, get_instrument_info, sortByStrikeComparator,
      pySorted, pyInsert, strike_price_comparator, alookup, assocSet, strContains,
      strContainsAux, List.isPrefixOf, sortCatalog2, catPut100, catCall100, catCall90,
      sortedInfosEx, happ]
  have h2 : alookup "23-02-2023" [("23-02-2023", sortedInfosEx)] = some sortedInfosEx := by
    simp [alookup]
  exact ⟨h1, h2, index_lists_sorted sortCatalog2 "NFO:HDFCBANK" "23-02-2023"
    [("23-02-2023", sortedInfosEx)] sortedInfosEx h1 h2⟩

/- ===================== claim C2 ===================== -/

theorem create_option_chain_writes (db : Store) (sym e : String)
    (m : List (String × List InstrumentInfo)) (info0 : InstrumentInfo)
    (rest : List InstrumentInfo)
    (h1 : alookup sym db.option_token_info = some m) (h2 : m ≠ [])
    (h3 : alookup e m = some (info0 :: rest)) :
    create_option_chain db sym e = .ok { db with option_chain :=
      (assocSet db.option_chain sym (chainAfter db e info0 (info0 :: rest))) } := by
  simp [create_option_chain, h1, h2, h3]

/-- C2 counterexample: the store holds a chain for the symbol with an entry
under expiry `"e2"`; after one aggregation pass for `"e1"`, the `"e2"` entry is
no longer readable — the pass rebuilt the whole record with only `"e1"`. -/
theorem create_overwrites_other_expiry_cex :
    ((alookup "NFO:HDFCBANK" frameDb.option_chain).map (fun c => alookup "e2" c.expiry) =
      some (some [oldEntry])) ∧
    ((match create_option_chain frameDb "NFO:HDFCBANK" "e1" with
      | .ok db1 =>
        (alookup "NFO:HDFCBANK" db1.option_chain).map (fun c => alookup "e2" c.expiry)
      | .error _ => some (some [oldEntry])) = some none) :=
  ⟨rfl, rfl⟩

/-- C2 as corrected: an aggregation pass for `(symbol, e1)` replaces the
symbol's whole Option Chain record: the new record's expiry table holds
exactly `e1` (entries stored under other expiries are discarded), while the
chain records of other symbols are untouched. -/
theorem create_option_chain_replaces_record :
    ∀ (db : Store) (sym e : String) (m : List (String × List InstrumentInfo))
      (info0 : InstrumentInfo) (rest : List InstrumentInfo),
      alookup sym db.option_token_info = some m → m ≠ [] →
      alookup e m = some (info0 :: rest) →
      ∃ db', create_option_chain db sym e = .ok db' ∧
        (∃ c, alookup sym db'.option_chain = some c ∧ c.expiry.map Prod.fst = [e]) ∧
        (∀ sym', sym' ≠ sym →
          alookup sym' db'.option_chain = alookup sym' db.option_chain) := by
  intro db sym e m i0 rest h1 h2 h3
  refine ⟨_, create_option_chain_writes db sym e m i0 rest h1 h2 h3,
    ⟨chainAfter db e i0 (i0 :: rest), ?_, ?_⟩, ?_⟩
  · exact alookup_assocSet_self _ _ _
  · simp [chainAfter, get_option_chain_base, assocSet]
  · intro s' hs'
    exact alookup_assocSet_ne _ _ _ _ hs'

/-- Witness for the corrected C2 at the concrete two-expiry store. -/
theorem create_option_chain_replaces_record_witness :
    (alookup "NFO:HDFCBANK" frameDb.option_token_info =
      some [("e1", [mkInfo 1 100 InstrType.ce])]) ∧
    (alookup "e1" [("e1", [mkInfo 1 100 InstrType.ce])] =
      some (mkInfo 1 100 InstrType.ce :: [])) ∧
    (∃ db', create_option_chain frameDb "NFO:HDFCBANK" "e1" = .ok db' ∧
      (∃ c, alookup "NFO:HDFCBANK" db'.option_chain = some c ∧
        c.expiry.map Prod.fst = ["e1"]) ∧
      (∀ sym', sym' ≠ "NFO:HDFCBANK" →
        alookup sym' db'.option_chain = alookup sym' frameDb.option_chain)) :=
  ⟨rfl, rfl,
   create_option_chain_replaces_record frameDb "NFO:HDFCBANK" "e1"
     [("e1", [mkInfo 1 100 InstrType.ce])] (mkInfo 1 100 InstrType.ce) []
     rfl (List.cons_ne_nil _ _) rfl⟩

/- ===================== claim C9 ===================== -/

/-- C9: a chain never aggregated reads as NotFound; one aggregation pass for
`(symbol, expiry)` makes the chain readable with exactly the requested expiry
as its table key; the batched read returns per-symbol chains in input order
and fails on the first missing symbol. -/
theorem chain_reader_contract :
    (∀ (db : Store) (sym : String), alookup sym db.option_chain = none →
      get_option_chain db sym = .error ChainErr.chainNotFound)
    ∧ (∀ (db : Store) (sym e : String) (m : List (String × List InstrumentInfo))
        (info0 : InstrumentInfo) (rest : List InstrumentInfo),
        alookup sym db.option_token_info = some m → m ≠ [] →
        alookup e m = some (info0 :: rest) →
        ∃ db', create_option_chain db sym e = .ok db' ∧
          ∃ c, get_option_chain db' sym = .ok c ∧ c.expiry.map Prod.fst = [e])
    ∧ (∀ (db : Store) (syms : List String) (cs : List OptionChain),
        get_option_chains db syms = .ok cs →
        List.Forall₂ (fun s c => get_option_chain db s = .ok c) syms cs)
    ∧ (∀ (db : Store) (pre : List String) (s : String) (post : List String),
        (∀ p ∈ pre, (alookup p db.option_chain).isSome) →
        alookup s db.option_chain = none →
        get_option_chains db (pre ++ s :: post) = .error ChainErr.chainNotFound) := by
  refine ⟨?_, ?_, ?_, ?_⟩
  · intro db sym h
    simp [get_option_chain, h]
  · intro db sym e m i0 rest h1 h2 h3
    refine ⟨_, create_option_chain_writes db sym e m i0 rest h1 h2 h3,
      chainAfter db e i0 (i0 :: rest), ?_, ?_⟩
    · simp [get_option_chain, alookup_assocSet_self]
    · simp [chainAfter, get_option_chain_base, assocSet]
  · intro db syms
    induction syms with
    | nil =>
      intro cs h
      simp only [get_option_chains] at h
      cases h
      exact List.Forall₂.nil
    | cons s rest ih =>
      intro cs h
      simp only [get_option_chains] at h
      cases hc : get_option_chain db s with
      | error err => rw [hc] at h; cases h
      | ok c =>
        rw [hc] at h
        cases hrest : get_option_chains db rest with
        | error err => rw [hrest] at h; cases h
        | ok cs' =>
          rw [hrest] at h
          have h2 : Except.ok (ε := ChainErr) (c :: cs') = Except.ok cs := h
          injection h2 with heq
          rw [← heq]
          exact List.Forall₂.cons hc (ih cs' hrest)
  · intro db pre s post hpre hs
    induction pre with
    | nil =>
      have hserr : get_option_chain db s = .error ChainErr.chainNotFound := by
        simp [get_option_chain, hs]
      show get_option_chains db (s :: post) = _
      simp only [get_option_chains, hserr]
      rfl
    | cons p pre' ih =>
      have hp : (alookup p db.option_chain).isSome := hpre p (List.mem_cons_self p pre')
      rcases Option.isSome_iff_exists.mp hp with ⟨c, hc⟩
      have hpok : get_option_chain db p = .ok c := by simp [get_option_chain, hc]
      have ih2 := ih (fun q hq => hpre q (List.mem_cons_of_mem p hq))
      show get_option_chains db (p :: (pre' ++ s :: post)) = _
      simp only [get_option_chains, hpok, ih2]
      rfl

/-- Witness for C9 at the concrete reader store. -/
theorem chain_reader_contract_witness :
    (alookup "NFO:TCS" readerDb.option_chain = none ∧
      get_option_chain readerDb "NFO:TCS" = .error ChainErr.chainNotFound)
    ∧ (alookup "NFO:HDFCBANK" readerDb.option_token_info =
        some [("23-02-2023", exInfos)] ∧
       ∃ db', create_option_chain readerDb "NFO:HDFCBANK" "23-02-2023" = .ok db' ∧
         ∃ c, get_option_chain db' "NFO:HDFCBANK" = .ok c ∧
           c.expiry.map Prod.fst = ["23-02-2023"])
    ∧ (get_option_chains readerDb ["NFO:HDFCBANK"] = .ok [oldChain] ∧
       List.Forall₂ (fun s c => get_option_chain readerDb s = .ok c)
         ["NFO:HDFCBANK"] [oldChain])
    ∧ ((∀ p ∈ ["NFO:HDFCBANK"], (alookup p readerDb.option_chain).isSome) ∧
       get_option_chains readerDb (["NFO:HDFCBANK"] ++ "NFO:TCS" :: []) =
         .error ChainErr.chainNotFound) :=
  ⟨⟨rfl, chain_reader_contract.1 readerDb "NFO:TCS" rfl⟩,
   ⟨rfl, chain_reader_contract.2.1 readerDb "NFO:HDFCBANK" "23-02-2023"
      [("23-02-2023", exInfos)] (mkInfo 1 100 InstrType.ce)
      [mkInfo 2 100 InstrType.pe, mkInfo 3 105 InstrType.ce, mkInfo 4 105 InstrType.pe,
       mkInfo 5 110 InstrType.ce, mkInfo 6 110 InstrType.pe]
      rfl (List.cons_ne_nil _ _) rfl⟩,
   ⟨rfl, chain_reader_contract.2.2.1 readerDb ["NFO:HDFCBANK"] [oldChain] rfl⟩,
   ⟨by decide, chain_reader_contract.2.2.2 readerDb ["NFO:HDFCBANK"] "NFO:TCS" []
      (by decide) rfl⟩⟩

/- ===================== claim C4 ===================== -/

theorem first_otm_mem (l : List InstrumentInfo) (v : ℚ) (h : l ≠ []) :
    ∃ ti ∈ l, first_otm_strike_price l v = ti.strike_price := by
  induction l with
  | nil => exact absurd rfl h
  | cons ti rest ih =>
    by_cases hq : v ≤ ti.strike_price
    · exact ⟨ti, List.mem_cons_self _ _, by simp [first_otm_strike_price, hq]⟩
    · cases rest with
      | nil =>
        exact ⟨ti, List.mem_cons_self _ _, by simp [first_otm_strike_price, hq]⟩
      | cons r rs =>
        rcases ih (by simp) with ⟨tj, htj, heq⟩
        exact ⟨tj, List.mem_cons_of_mem _ htj,
          by simpa [first_otm_strike_price, hq] using heq⟩

theorem first_otm_least (l : List InstrumentInfo) (v : ℚ)
    (hsort : l.Pairwise (fun a b => a.strike_price ≤ b.strike_price))
    (hex : ∃ ti ∈ l, v ≤ ti.strike_price) :
    (v ≤ first_otm_strike_price l v) ∧
    (∀ ti ∈ l, v ≤ ti.strike_price → first_otm_strike_price l v ≤ ti.strike_price) := by
  induction l with
  | nil => rcases hex with ⟨ti, hti, _⟩; cases hti
  | cons ti rest ih =>
    rcases List.pairwise_cons.mp hsort with ⟨hhead, htail⟩
    by_cases hq : v ≤ ti.strike_price
    · refine ⟨by simp [first_otm_strike_price, hq], ?_⟩
      intro tj htj _
      rcases List.mem_cons.mp htj with htj | htj
      · simp [first_otm_strike_price, hq, htj]
      · simp only [first_otm_strike_price, if_pos hq]
        exact hhead tj htj
    · have hex2 : ∃ tj ∈ rest, v ≤ tj.strike_price := by
        rcases hex with ⟨tj, htj, hvj⟩
        rcases List.mem_cons.mp htj with htj | htj
        · rw [htj] at hvj; exact absurd hvj hq
        · exact ⟨tj, htj, hvj⟩
      cases rest with
      | nil =>
        rcases hex2 with ⟨tj, htj, _⟩
        cases htj
      | cons r rs =>
        rcases ih htail hex2 with ⟨ih1, ih2⟩
        have hfeq : first_otm_strike_price (ti :: r :: rs) v =
            first_otm_strike_price (r :: rs) v := by
          simp [first_otm_strike_price, hq]
        rw [hfeq]
        refine ⟨ih1, ?_⟩
        intro tk htk hvk
        rcases List.mem_cons.mp htk with htk | htk
        · rw [htk] at hvk; exact absurd hvk hq
        · exact ih2 tk htk hvk

theorem first_otm_fallback (l : List InstrumentInfo) (v : ℚ)
    (hall : ∀ ti ∈ l, ti.strike_price < v) (h : l ≠ []) :
    some (first_otm_strike_price l v) = l.getLast?.map (fun ti => ti.strike_price) := by
  induction l with
  | nil => exact absurd rfl h
  | cons ti rest ih =>
    have hq : ¬ v ≤ ti.strike_price :=
      not_le.mpr (hall ti (List.mem_cons_self _ _))
    cases rest with
    | nil => simp [first_otm_strike_price, hq]
    | cons r rs =>
      have hall' : ∀ tj ∈ r :: rs, tj.strike_price < v :=
        fun tj htj => hall tj (List.mem_cons_of_mem _ htj)
      have ih2 := ih hall' (by simp)
      rw [List.getLast?_cons_cons, ← ih2]
      simp [first_otm_strike_price, hq]

/-- C4: for an NFO symbol with a known spot price and a non-empty
strike-sorted instrument list at the expiry: the reference strike is the
smallest strike at or above spot — or the last strike when none qualifies —
a token is kept iff its relative strike distance from the reference is at
most `p` percent, and the filtered token list is a subset of the symbol's
unfiltered token list. -/
theorem percentage_filter_correct :
    ∀ (db : Store) (sym e : String) (p : ℚ) (m : List (String × List InstrumentInfo))
      (infos : List InstrumentInfo) (spot : ℚ),
      strContains sym "NFO" = true →
      alookup sym db.option_token_info = some m →
      alookup e m = some infos →
      infos ≠ [] →
      infos.Pairwise (fun a b => a.strike_price ≤ b.strike_price) →
      (∀ ti ∈ infos, 0 < ti.strike_price) →
      alookup (strReplace sym "NFO" "NSE") db.ltp = some spot →
      ∃ toks, get_tokens_percentage db sym e p = .ok toks ∧
        (∃ ti ∈ infos, ti.strike_price = first_otm_strike_price infos spot) ∧
        ((∃ tj ∈ infos, spot ≤ tj.strike_price) →
          spot ≤ first_otm_strike_price infos spot ∧
          ∀ ti ∈ infos, spot ≤ ti.strike_price →
            first_otm_strike_price infos spot ≤ ti.strike_price) ∧
        ((∀ ti ∈ infos, ti.strike_price < spot) →
          some (first_otm_strike_price infos spot) =
            infos.getLast?.map (fun ti => ti.strike_price)) ∧
        (∀ t, t ∈ toks ↔ ∃ ti ∈ infos, ti.token = t ∧
          |first_otm_strike_price infos spot - ti.strike_price| /
            first_otm_strike_price infos spot * 100 ≤ p) ∧
        (get_token_info_for_trading_symbol db sym e =
          .ok (infos.map (fun ti => ti.token))) ∧
        toks ⊆ infos.map (fun ti => ti.token) := by
  intro db sym e p m infos spot hNFO hm he hne hsort hpos hltp
  have hmne : m ≠ [] := by
    intro hnil
    rw [hnil] at he
    cases he
  have hNFOf : ¬ strContains sym "NFO" = false := by simp [hNFO]
  have hall : get_token_info_for_trading_symbol db sym e =
      .ok (infos.map (fun ti => ti.token)) := by
    simp [get_token_info_for_trading_symbol, hm, hmne, he]
  refine ⟨(infos.filter (fun ti =>
      decide (|first_otm_strike_price infos spot - ti.strike_price| /
        first_otm_strike_price infos spot * 100 ≤ p))).map (fun ti => ti.token),
    ?_, ?_, ?_, ?_, ?_, hall, ?_⟩
  · simp [get_tokens_percentage, hNFOf, hm, he, hltp]
  · rcases first_otm_mem infos spot hne with ⟨ti, hti, heq⟩
    exact ⟨ti, hti, heq.symm⟩
  · intro hex
    rcases first_otm_least infos spot hsort hex with ⟨h1, h2⟩
    exact ⟨h1, h2⟩
  · intro hallbelow
    exact first_otm_fallback infos spot hallbelow hne
  · intro t
    simp only [List.mem_map, List.mem_filter, decide_eq_true_eq]
    constructor
    · rintro ⟨ti, ⟨hti, hgap⟩, rfl⟩
      exact ⟨ti, hti, rfl, hgap⟩
    · rintro ⟨ti, hti, rfl, hgap⟩
      exact ⟨ti, ⟨hti, hgap⟩, rfl⟩
  · intro t ht
    rcases List.mem_map.mp ht with ⟨ti, hti, rfl⟩
    exact List.mem_map.mpr ⟨ti, List.mem_of_mem_filter hti, rfl⟩

/-- Witness for C4: calls at strikes 90/100/110, spot 95, band 5 percent —
the reference strike is 100 and only token 2 survives. -/
theorem percentage_filter_correct_witness :
    (strContains "NFO:HDFCBANK" "NFO" = true) ∧
    (alookup "NFO:HDFCBANK" pctDb.option_token_info = some [("23-02-2023", pctInfos)]) ∧
    (alookup "23-02-2023" [("23-02-2023", pctInfos)] = some pctInfos) ∧
    (pctInfos ≠ []) ∧
    (pctInfos.Pairwise (fun a b => a.strike_price ≤ b.strike_price)) ∧
    (∀ ti ∈ pctInfos, 0 < ti.strike_price) ∧
    (alookup (strReplace "NFO:HDFCBANK" "NFO" "NSE") pctDb.ltp = some 95) ∧
    (∃ toks, get_tokens_percentage pctDb "NFO:HDFCBANK" "23-02-2023" 5 = .ok toks ∧
      (∃ ti ∈ pctInfos, ti.strike_price = first_otm_strike_price pctInfos 95) ∧
      ((∃ tj ∈ pctInfos, (95:ℚ) ≤ tj.strike_price) →
        (95:ℚ) ≤ first_otm_strike_price pctInfos 95 ∧
        ∀ ti ∈ pctInfos, (95:ℚ) ≤ ti.strike_price →
          first_otm_strike_price pctInfos 95 ≤ ti.strike_price) ∧
      ((∀ ti ∈ pctInfos, ti.strike_price < 95) →
        some (first_otm_strike_price pctInfos 95) =
          pctInfos.getLast?.map (fun ti => ti.strike_price)) ∧
      (∀ t, t ∈ toks ↔ ∃ ti ∈ pctInfos, ti.token = t ∧
        |first_otm_strike_price pctInfos 95 - ti.strike_price| /
          first_otm_strike_price pctInfos 95 * 100 ≤ 5) ∧
      (get_token_info_for_trading_symbol pctDb "NFO:HDFCBANK" "23-02-2023" =
        .ok (pctInfos.map (fun ti => ti.token))) ∧
      toks ⊆ pctInfos.map (fun ti => ti.token)) := by
  have hrep : strReplace "NFO:HDFCBANK" "NFO" "NSE" = "NSE:HDFCBANK" := by
    simp +decide [strReplace, replaceChars, List.isPrefixOf]
  have hltp : alookup (strReplace "NFO:HDFCBANK" "NFO" "NSE") pctDb.ltp = some 95 := by
    rw [hrep]
    rfl
  exact ⟨by decide, rfl, rfl, List.cons_ne_nil _ _, by decide, by decide, hltp,
    percentage_filter_correct pctDb "NFO:HDFCBANK" "23-02-2023" 5
      [("23-02-2023", pctInfos)] pctInfos 95 (by decide) rfl rfl
      (List.cons_ne_nil _ _) (by decide) (by decide) hltp⟩

/- ===================== claim C1 ===================== -/

theorem alookup_upsertSide (acc : List (ℚ × SideMap)) (s s' : ℚ) (ty : InstrType)
    (d : OptionDetail) :
    alookup s (upsertSide acc s' ty d) =
      if s = s' then some (setSide ((alookup s' acc).getD ⟨none, none⟩) ty d)
      else alookup s acc := by
  induction acc with
  | nil =>
    by_cases h : s = s'
    · subst h; simp [alookup, upsertSide]
    · have h2 : ¬ s' = s := fun hh => h hh.symm
      simp [alookup, upsertSide, h, h2]
  | cons p rest ih =>
    obtain ⟨k, m⟩ := p
    by_cases hk : k = s'
    · subst hk
      by_cases hs : s = k
      · subst hs; simp [alookup, upsertSide]
      · have h2 : ¬ k = s := fun hh => hs hh.symm
        simp [alookup, upsertSide, hs, h2]
    · simp only [upsertSide, if_neg hk]
      by_cases hs : s = s'
      · subst hs
        have hk2 : ¬ k = s := fun hh => hk hh
        simp [alookup, hk2, ih]
      · by_cases hks : k = s
        · subst hks
          simp [alookup, ih, hs]
        · simp [alookup, hks, ih, hs]

theorem keys_upsertSide (acc : List (ℚ × SideMap)) (s : ℚ) (ty : InstrType)
    (d : OptionDetail) :
    (upsertSide acc s ty d).map Prod.fst =
      if s ∈ acc.map Prod.fst then acc.map Prod.fst else acc.map Prod.fst ++ [s] := by
  induction acc with
  | nil => simp [upsertSide]
  | cons p rest ih =>
    obtain ⟨k, m⟩ := p
    by_cases hk : k = s
    · subst hk
      simp [upsertSide]
    · have hk2 : ¬ s = k := fun hh => hk hh.symm
      by_cases hmem : s ∈ rest.map Prod.fst
      · simp [upsertSide, hk, ih, hmem, hk2]
      · simp [upsertSide, hk, ih, hmem, hk2]

theorem nodup_keys_upsertSide (acc : List (ℚ × SideMap)) (s : ℚ) (ty : InstrType)
    (d : OptionDetail) (h : (acc.map Prod.fst).Nodup) :
    ((upsertSide acc s ty d).map Prod.fst).Nodup := by
  rw [keys_upsertSide]
  by_cases hmem : s ∈ acc.map Prod.fst
  · simp [hmem, h]
  · simp [hmem, h, List.nodup_append]

theorem nodup_keys_collect (db : Store) :
    ∀ (infos : List InstrumentInfo) (acc : List (ℚ × SideMap)),
      (acc.map Prod.fst).Nodup →
      ((infos.foldl (stepSide db) acc).map Prod.fst).Nodup := by
  intro infos
  induction infos with
  | nil => intro acc h; exact h
  | cons ti tis ih =>
    intro acc h
    have h2 : ((stepSide db acc ti).map Prod.fst).Nodup := by
      unfold stepSide
      cases alookup ti.token db.ticks with
      | none => exact h
      | some t => exact nodup_keys_upsertSide acc _ _ _ h
    exact ih _ h2

theorem alookup_collect_ne_none (db : Store) :
    ∀ (infos : List InstrumentInfo) (acc : List (ℚ × SideMap)) (s : ℚ),
      alookup s (infos.foldl (stepSide db) acc) ≠ none ↔
        alookup s acc ≠ none ∨
        ∃ ti ∈ infos, ti.strike_price = s ∧ alookup ti.token db.ticks ≠ none := by
  intro infos
  induction infos with
  | nil => intro acc s; simp
  | cons ti tis ih =>
    intro acc s
    have hstep : (tis.foldl (stepSide db) (stepSide db acc ti)) =
        ((ti :: tis).foldl (stepSide db) acc) := rfl
    rw [← hstep, ih]
    cases h : alookup ti.token db.ticks with
    | none =>
      simp only [stepSide, h]
      constructor
      · rintro (h1 | h1)
        · exact Or.inl h1
        · rcases h1 with ⟨tj, htj, he, ht⟩
          exact Or.inr ⟨tj, List.mem_cons_of_mem _ htj, he, ht⟩
      · rintro (h1 | h1)
        · exact Or.inl h1
        · rcases h1 with ⟨tj, htj, he, ht⟩
          rcases List.mem_cons.mp htj with htj | htj
          · rw [htj] at ht; exact absurd h (by simp [ht])
          · exact Or.inr ⟨tj, htj, he, ht⟩
    | some t =>
      simp only [stepSide, h]
      rw [alookup_upsertSide]
      by_cases hs : s = ti.strike_price
      · simp only [if_pos hs]
        constructor
        · intro _
          exact Or.inr ⟨ti, List.mem_cons_self _ _, hs.symm, by simp [h]⟩
        · intro _
          exact Or.inl (by simp)
      · simp only [if_neg hs]
        constructor
        · rintro (h1 | h1)
          · exact Or.inl h1
          · rcases h1 with ⟨tj, htj, he, ht⟩
            exact Or.inr ⟨tj, List.mem_cons_of_mem _ htj, he, ht⟩
        · rintro (h1 | h1)
          · exact Or.inl h1
          · rcases h1 with ⟨tj, htj, he, ht⟩
            rcases List.mem_cons.mp htj with htj | htj
            · rw [htj] at he; exact absurd he.symm hs
            · exact Or.inr ⟨tj, htj, he, ht⟩

theorem setSide_ce (m : SideMap) (ty : InstrType) (d : OptionDetail) :
    (setSide m ty d).ce = if ty = InstrType.ce then some d else m.ce := by
  cases ty <;> simp [setSide]

theorem setSide_pe (m : SideMap) (ty : InstrType) (d : OptionDetail) :
    (setSide m ty d).pe = if ty = InstrType.pe then some d else m.pe := by
  cases ty <;> simp [setSide]


theorem stepSide_ce_iff (db : Store) (acc : List (ℚ × SideMap)) (ti : InstrumentInfo)
    (s : ℚ) :
    (∃ sm0, alookup s (stepSide db acc ti) = some sm0 ∧ sm0.ce ≠ none) ↔
      ((∃ sm0, alookup s acc = some sm0 ∧ sm0.ce ≠ none) ∨
       (ti.strike_price = s ∧ ti.instrument_type = InstrType.ce ∧
         alookup ti.token db.ticks ≠ none)) := by
  cases ht : alookup ti.token db.ticks with
  | none => simp [stepSide, ht]
  | some t =>
    simp only [stepSide, ht]
    rw [alookup_upsertSide]
    by_cases hs : s = ti.strike_price
    · simp only [if_pos hs, Option.some.injEq]
      constructor
      · rintro ⟨sm0, hsm0, hce⟩
        rw [← hsm0] at hce
        rw [setSide_ce] at hce
        cases hty : ti.instrument_type with
        | ce => exact Or.inr ⟨hs.symm, rfl, by simp [ht]⟩
        | pe =>
          rw [hty] at hce
          rw [if_neg (by decide : ¬ (InstrType.pe = InstrType.ce))] at hce
          cases hacc : alookup ti.strike_price acc with
          | none => rw [hacc] at hce; simp at hce
          | some m0 =>
            rw [hacc] at hce
            exact Or.inl ⟨m0, hs ▸ hacc, by simpa using hce⟩
      · rintro (⟨m0, hm0, hce⟩ | ⟨he, hty, htk⟩)
        · refine ⟨_, rfl, ?_⟩
          rw [setSide_ce]
          rw [hs] at hm0
          by_cases hty : ti.instrument_type = InstrType.ce
          · simp [hty]
          · simp [hty, hm0, hce]
        · refine ⟨_, rfl, ?_⟩
          rw [setSide_ce, hty]
          simp
    · simp only [if_neg hs]
      have hs2 : ¬ ti.strike_price = s := fun hh => hs hh.symm
      simp [hs2]

theorem stepSide_pe_iff (db : Store) (acc : List (ℚ × SideMap)) (ti : InstrumentInfo)
    (s : ℚ) :
    (∃ sm0, alookup s (stepSide db acc ti) = some sm0 ∧ sm0.pe ≠ none) ↔
      ((∃ sm0, alookup s acc = some sm0 ∧ sm0.pe ≠ none) ∨
       (ti.strike_price = s ∧ ti.instrument_type = InstrType.pe ∧
         alookup ti.token db.ticks ≠ none)) := by
  cases ht : alookup ti.token db.ticks with
  | none => simp [stepSide, ht]
  | some t =>
    simp only [stepSide, ht]
    rw [alookup_upsertSide]
    by_cases hs : s = ti.strike_price
    · simp only [if_pos hs, Option.some.injEq]
      constructor
      · rintro ⟨sm0, hsm0, hpe⟩
        rw [← hsm0] at hpe
        rw [setSide_pe] at hpe
        cases hty : ti.instrument_type with
        | pe => exact Or.inr ⟨hs.symm, rfl, by simp [ht]⟩
        | ce =>
          rw [hty] at hpe
          rw [if_neg (by decide : ¬ (InstrType.ce = InstrType.pe))] at hpe
          cases hacc : alookup ti.strike_price acc with
          | none => rw [hacc] at hpe; simp at hpe
          | some m0 =>
            rw [hacc] at hpe
            exact Or.inl ⟨m0, hs ▸ hacc, by simpa using hpe⟩
      · rintro (⟨m0, hm0, hpe⟩ | ⟨he, hty, htk⟩)
        · refine ⟨_, rfl, ?_⟩
          rw [setSide_pe]
          rw [hs] at hm0
          by_cases hty : ti.instrument_type = InstrType.pe
          · simp [hty]
          · simp [hty, hm0, hpe]
        · refine ⟨_, rfl, ?_⟩
          rw [setSide_pe, hty]
          simp
    · simp only [if_neg hs]
      have hs2 : ¬ ti.strike_price = s := fun hh => hs hh.symm
      simp [hs2]

theorem ce_collect (db : Store) :
    ∀ (infos : List InstrumentInfo) (acc : List (ℚ × SideMap)) (s : ℚ) (sm : SideMap),
      alookup s (infos.foldl (stepSide db) acc) = some sm →
      (sm.ce ≠ none ↔
        (∃ sm0, alookup s acc = some sm0 ∧ sm0.ce ≠ none) ∨
        ∃ ti ∈ infos, ti.strike_price = s ∧ ti.instrument_type = InstrType.ce ∧
          alookup ti.token db.ticks ≠ none) := by
  intro infos
  induction infos with
  | nil =>
    intro acc s sm h
    simp only [List.foldl_nil] at h
    simp [h]
  | cons ti tis ih =>
    intro acc s sm h
    have hstep : ((ti :: tis).foldl (stepSide db) acc) =
        (tis.foldl (stepSide db) (stepSide db acc ti)) := rfl
    rw [hstep] at h
    rw [ih _ s sm h, stepSide_ce_iff db acc ti s]
    constructor
    · rintro (( h1 | h1) | h1)
      · exact Or.inl h1
      · exact Or.inr ⟨ti, List.mem_cons_self _ _, h1⟩
      · rcases h1 with ⟨tj, htj, hj⟩
        exact Or.inr ⟨tj, List.mem_cons_of_mem _ htj, hj⟩
    · rintro (h1 | h1)
      · exact Or.inl (Or.inl h1)
      · rcases h1 with ⟨tj, htj, hj⟩
        rcases List.mem_cons.mp htj with htj | htj
        · exact Or.inl (Or.inr (htj ▸ hj))
        · exact Or.inr ⟨tj, htj, hj⟩

theorem pe_collect (db : Store) :
    ∀ (infos : List InstrumentInfo) (acc : List (ℚ × SideMap)) (s : ℚ) (sm : SideMap),
      alookup s (infos.foldl (stepSide db) acc) = some sm →
      (sm.pe ≠ none ↔
        (∃ sm0, alookup s acc = some sm0 ∧ sm0.pe ≠ none) ∨
        ∃ ti ∈ infos, ti.strike_price = s ∧ ti.instrument_type = InstrType.pe ∧
          alookup ti.token db.ticks ≠ none) := by
  intro infos
  induction infos with
  | nil =>
    intro acc s sm h
    simp only [List.foldl_nil] at h
    simp [h]
  | cons ti tis ih =>
    intro acc s sm h
    have hstep : ((ti :: tis).foldl (stepSide db) acc) =
        (tis.foldl (stepSide db) (stepSide db acc ti)) := rfl
    rw [hstep] at h
    rw [ih _ s sm h, stepSide_pe_iff db acc ti s]
    constructor
    · rintro (( h1 | h1) | h1)
      · exact Or.inl h1
      · exact Or.inr ⟨ti, List.mem_cons_self _ _, h1⟩
      · rcases h1 with ⟨tj, htj, hj⟩
        exact Or.inr ⟨tj, List.mem_cons_of_mem _ htj, hj⟩
    · rintro (h1 | h1)
      · exact Or.inl (Or.inl h1)
      · rcases h1 with ⟨tj, htj, hj⟩
        rcases List.mem_cons.mp htj with htj | htj
        · exact Or.inl (Or.inr (htj ▸ hj))
        · exact Or.inr ⟨tj, htj, hj⟩

theorem alookup_ne_none_of_mem [DecidableEq κ] (l : List (κ × β)) (k : κ) (v : β)
    (h : (k, v) ∈ l) : alookup k l ≠ none := by
  induction l with
  | nil => cases h
  | cons p rest ih =>
    obtain ⟨k', v'⟩ := p
    rcases List.mem_cons.mp h with h2 | h2
    · injection h2 with hk hv
      simp [alookup, hk]
    · by_cases hk : k' = k
      · simp [alookup, hk]
      · simp [alookup, hk, ih h2]

theorem mem_of_alookup_eq_some [DecidableEq κ] (l : List (κ × β)) (k : κ) (v : β)
    (h : alookup k l = some v) : (k, v) ∈ l := by
  induction l with
  | nil => cases h
  | cons p rest ih =>
    obtain ⟨k', v'⟩ := p
    by_cases hk : k' = k
    · subst hk
      have h2 : v' = v := by simpa [alookup] using h
      rw [← h2]
      exact List.mem_cons_self _ _
    · simp only [alookup, if_neg hk] at h
      exact List.mem_cons_of_mem _ (ih h)

theorem alookup_eq_some_of_mem_nodup [DecidableEq κ] (l : List (κ × β)) (k : κ) (v : β)
    (hnd : (l.map Prod.fst).Nodup) (h : (k, v) ∈ l) : alookup k l = some v := by
  induction l with
  | nil => cases h
  | cons p rest ih =>
    obtain ⟨k', v'⟩ := p
    rcases List.pairwise_cons.mp hnd with ⟨hk', hnd'⟩
    rcases List.mem_cons.mp h with h2 | h2
    · injection h2 with hk hv
      simp [alookup, hk, hv]
    · by_cases hk : k' = k
      · exfalso
        subst hk
        exact hk' k' (List.mem_map.mpr ⟨(k', v), h2, rfl⟩) rfl
      · simp [alookup, hk, ih hnd' h2]

/-- C1: one aggregation pass produces, for the expiry's instrument list,
exactly one entry per strike having at least one persisted tick; an entry
carries a call side iff some call instrument at that strike has a tick, and a
put side iff some put instrument does; strikes with no tick are absent; the
entries are strictly ascending by strike.  On the concrete example — ticks
for 100CE, 100PE, 105CE over instruments at strikes 100/105/110 — the list is
exactly [entry(100, both sides), entry(105, call only)]. -/
theorem create_option_chain_aggregation :
    (∀ (db : Store) (infos : List InstrumentInfo) (s : ℚ),
      (∃ en ∈ buildChainEntries db infos, en.strike_price = s) ↔
        ∃ ti ∈ infos, ti.strike_price = s ∧ alookup ti.token db.ticks ≠ none)
    ∧ (∀ (db : Store) (infos : List InstrumentInfo),
        ∀ en ∈ buildChainEntries db infos,
          (en.ce ≠ none ↔ ∃ ti ∈ infos, ti.strike_price = en.strike_price ∧
            ti.instrument_type = InstrType.ce ∧ alookup ti.token db.ticks ≠ none) ∧
          (en.pe ≠ none ↔ ∃ ti ∈ infos, ti.strike_price = en.strike_price ∧
            ti.instrument_type = InstrType.pe ∧ alookup ti.token db.ticks ≠ none))
    ∧ (∀ (db : Store) (infos : List InstrumentInfo),
        ((buildChainEntries db infos).map ChainEntry.strike_price).Pairwise (· < ·))
    ∧ buildChainEntries exDb exInfos =
        [⟨100, some (get_option_detail (mkTick 1)), some (get_option_detail (mkTick 2))⟩,
         ⟨105, some (get_option_detail (mkTick 3)), none⟩] := by
  refine ⟨?_, ?_, ?_, ?_⟩
  · intro db infos s
    constructor
    · rintro ⟨en, hen, rfl⟩
      have h2 : en ∈ (collectSides db infos).map mkChainEntry :=
        (mem_pySorted _ _ _).mp hen
      rcases List.mem_map.mp h2 with ⟨⟨ps, psm⟩, hp, rfl⟩
      have h3 : alookup ps (collectSides db infos) ≠ none :=
        alookup_ne_none_of_mem _ _ _ hp
      have h4 := (alookup_collect_ne_none db infos [] ps).mp h3
      rcases h4 with h4 | h4
      · simp [alookup] at h4
      · exact h4
    · rintro ⟨ti, hti, hstk, htick⟩
      have h3 : alookup s (collectSides db infos) ≠ none :=
        (alookup_collect_ne_none db infos [] s).mpr (Or.inr ⟨ti, hti, hstk, htick⟩)
      cases hl : alookup s (collectSides db infos) with
      | none => exact absurd hl h3
      | some sm =>
        have hmem : (s, sm) ∈ collectSides db infos := mem_of_alookup_eq_some _ _ _ hl
        exact ⟨mkChainEntry (s, sm),
          (mem_pySorted _ _ _).mpr (List.mem_map.mpr ⟨(s, sm), hmem, rfl⟩), rfl⟩
  · intro db infos en hen
    have h2 : en ∈ (collectSides db infos).map mkChainEntry :=
      (mem_pySorted _ _ _).mp hen
    rcases List.mem_map.mp h2 with ⟨⟨ps, psm⟩, hp, rfl⟩
    have hnd : ((collectSides db infos).map Prod.fst).Nodup :=
      nodup_keys_collect db infos [] (by simp)
    have hl : alookup ps (collectSides db infos) = some psm :=
      alookup_eq_some_of_mem_nodup _ _ _ hnd hp
    constructor
    · have hiff := ce_collect db infos [] ps psm hl
      simpa [alookup, mkChainEntry] using hiff
    · have hiff := pe_collect db infos [] ps psm hl
      simpa [alookup, mkChainEntry] using hiff
  · intro db infos
    have hpw : (buildChainEntries db infos).Pairwise
        (fun a b => a.strike_price ≤ b.strike_price) := by
      refine pairwise_pySorted _ _ ?_ ?_ ?_ _
      · intro a b c hab hbc
        exact le_trans hab hbc
      · intro a b hlt
        have h2 : ¬ (b.strike_price < a.strike_price) := by simpa using hlt
        exact le_of_not_lt h2
      · intro a b hlt
        have h2 : b.strike_price < a.strike_price := by simpa using hlt
        exact le_of_lt h2
    have hmap : ((buildChainEntries db infos).map ChainEntry.strike_price).Pairwise
        (· ≤ ·) := List.pairwise_map.mpr hpw
    have hnd0 : ((collectSides db infos).map Prod.fst).Nodup :=
      nodup_keys_collect db infos [] (by simp)
    have hperm : ((buildChainEntries db infos).map ChainEntry.strike_price).Perm
        (((collectSides db infos).map mkChainEntry).map ChainEntry.strike_price) :=
      (perm_pySorted _ _).map _
    have heq : ((collectSides db infos).map mkChainEntry).map ChainEntry.strike_price =
        (collectSides db infos).map Prod.fst := by
      rw [List.map_map]
      rfl
    have hnd : ((buildChainEntries db infos).map ChainEntry.strike_price).Nodup := by
      rw [hperm.nodup_iff, heq]
      exact hnd0
    exact (List.Pairwise.and hmap hnd).imp (fun h => lt_of_le_of_ne h.1 h.2)
  · rfl

/-- Witness for C1 at the concrete example store. -/
theorem create_option_chain_aggregation_witness :
    ((⟨100, some (get_option_detail (mkTick 1)),
        some (get_option_detail (mkTick 2))⟩ : ChainEntry) ∈
      buildChainEntries exDb exInfos) ∧
    (((⟨100, some (get_option_detail (mkTick 1)),
        some (get_option_detail (mkTick 2))⟩ : ChainEntry).ce ≠ none ↔
      ∃ ti ∈ exInfos,
        ti.strike_price = (⟨100, some (get_option_detail (mkTick 1)),
          some (get_option_detail (mkTick 2))⟩ : ChainEntry).strike_price ∧
        ti.instrument_type = InstrType.ce ∧ alookup ti.token exDb.ticks ≠ none) ∧
     ((⟨100, some (get_option_detail (mkTick 1)),
        some (get_option_detail (mkTick 2))⟩ : ChainEntry).pe ≠ none ↔
      ∃ ti ∈ exInfos,
        ti.strike_price = (⟨100, some (get_option_detail (mkTick 1)),
          some (get_option_detail (mkTick 2))⟩ : ChainEntry).strike_price ∧
        ti.instrument_type = InstrType.pe ∧ alookup ti.token exDb.ticks ≠ none)) := by
  have hmem : (⟨100, some (get_option_detail (mkTick 1)),
      some (get_option_detail (mkTick 2))⟩ : ChainEntry) ∈
      buildChainEntries exDb exInfos := by
    rw [create_option_chain_aggregation.2.2.2]
    exact List.mem_cons_self _ _
  exact ⟨hmem, create_option_chain_aggregation.2.1 exDb exInfos _ hmem⟩
